import Mathlib

/-!
Verification of the feedback-driven re-enhancement pipeline
(`src/automation/run_automation.py`, `src/automation/auto_improve.py`,
`src/app.py`) against its natural-language specification.

The Python code is shallowly embedded: audio buffers are `List ℚ`
(samples), the feedback ledger is a `List FeedbackRecord`, file contents
and fallible effects are explicit data (`LedgerFile`, `Except`), and the
external DSP library calls (mel spectrogram correlation) are abstracted
as function parameters.  Machine floats are modelled as exact rationals.
-/

namespace NovaMind

/-- Python `str.strip()`: drop leading and trailing whitespace.
Embedded directly on the character list of the string. -/
def pyStrip (s : String) : String :=
  ⟨((s.data.dropWhile Char.isWhitespace).reverse.dropWhile Char.isWhitespace).reverse⟩

/-- Python `str.lower()` (ASCII case folding suffices for the rating
vocabulary used by the code). -/
def pyLower (s : String) : String :=
  ⟨s.data.map Char.toLower⟩

/-- One record of the feedback ledger (`learning_data.json`).  The code
only reads `output_id`, `job_id` and `rating`; `comment` and `timestamp`
are carried along unused.  A `none` field models an absent JSON key (or
JSON `null`). -/
structure FeedbackRecord where
  output_id : Option String := none
  job_id : Option String := none
  rating : Option String := none
  comment : Option String := none
  timestamp : Option String := none
deriving DecidableEq

/-- `run_automation._is_negative`: strip and lowercase the rating text and
test membership in the fixed negative vocabulary.  A missing rating
(`None`) is replaced by the empty string first, hence is not negative. -/
def isNegativeRating (rating : Option String) : Bool :=
  let r := pyLower (pyStrip (rating.getD ("")))
  [("bad"), ("negative"), ("0"), ("1"), ("1-star"), ("poor"), ("no")].contains r

/-- `run_automation._id_from_feedback`:
`str(row.get("output_id") or row.get("job_id") or "").strip()`.
Python `or` falls through on falsy values (absent key or empty string). -/
def idFromFeedback (r : FeedbackRecord) : String :=
  pyStrip (match r.output_id with
    | some s => if s = ("") then (r.job_id.getD ("")) else s
    | none => r.job_id.getD (""))

/-- The list built by `[ _id_from_feedback(x) for x in fb if _is_negative(x.get("rating")) ]`
followed by the `Counter`'s truthiness filter `[i for i in neg_ids if i]`. -/
def negList (fb : List FeedbackRecord) : List String :=
  ((fb.filter (fun x => isNegativeRating x.rating)).map idFromFeedback).filter
    (fun i => i ≠ (""))

/-- The list built by
`[ _id_from_feedback(x) for x in fb if not _is_negative(x.get("rating")) and (x.get("rating") is not None) ]`
followed by the truthiness filter. -/
def posList (fb : List FeedbackRecord) : List String :=
  ((fb.filter (fun x => !isNegativeRating x.rating && x.rating.isSome)).map idFromFeedback).filter
    (fun i => i ≠ (""))

/-- `neg[oid]` of `neg = Counter([i for i in neg_ids if i])`. -/
def negCount (fb : List FeedbackRecord) (oid : String) : ℕ :=
  (negList fb).count oid

/-- `pos.get(oid, 0)` of `pos = Counter([i for i in pos_ids if i])`. -/
def posCount (fb : List FeedbackRecord) (oid : String) : ℕ :=
  (posList fb).count oid

/-- Lexicographic comparison of character lists by code point, the order
Python's `sorted` uses on strings.  Structural recursion so that concrete
instances evaluate in the kernel (Lean's builtin `String.ltb` does not). -/
def pyStrLtAux : List Char → List Char → Bool
  | [], [] => false
  | [], _ :: _ => true
  | _ :: _, [] => false
  | a :: as, b :: bs =>
    if a < b then true
    else if b < a then false
    else pyStrLtAux as bs

/-- Python string comparison `s < t` (code-point lexicographic). -/
def pyStrLt (s t : String) : Bool :=
  pyStrLtAux s.data t.data

/-- Insert a string into a strictly ascending list, dropping it if it is
already present.  `sortedDedup` below uses this to embed Python's
`sorted(set(l))`. -/
def insertSorted (x : String) : List String → List String
  | [] => [x]
  | y :: ys =>
    if pyStrLt x y then x :: y :: ys
    else if x = y then y :: ys
    else y :: insertSorted x ys

/-- Python `sorted(set(l))`: a strictly ascending duplicate-free list with
the same members as `l`. -/
def sortedDedup (l : List String) : List String :=
  l.foldr insertSorted []

/-- `run_automation.rebuild_flags`, pure core: from the parsed feedback
ledger and the configured threshold, the flagged-identifier list
`sorted(set([oid for oid, n in neg.items() if n >= th and n > pos.get(oid, 0)]))`. -/
def rebuildFlagsList (fb : List FeedbackRecord) (th : ℕ) : List String :=
  sortedDedup ((negList fb).filter
    (fun oid => decide (th ≤ negCount fb oid) && decide (posCount fb oid < negCount fb oid)))

-- Concrete ledgers for the spec's worked examples.

/-- Ledger with two negative ratings for identifier `a`. -/
def exTwoNeg : List FeedbackRecord :=
  [{ output_id := some ("a"), rating := some ("negative") },
   { output_id := some ("a"), rating := some ("negative") }]

/-- Ledger with two negative and two positive ratings for identifier `b`. -/
def exTwoNegTwoPos : List FeedbackRecord :=
  [{ output_id := some ("b"), rating := some ("negative") },
   { output_id := some ("b"), rating := some ("negative") },
   { output_id := some ("b"), rating := some ("positive") },
   { output_id := some ("b"), rating := some ("positive") }]

/-- Ledger with a single unrecognizable rating for identifier `a`. -/
def exMeh : List FeedbackRecord :=
  [{ output_id := some ("a"), rating := some ("meh") }]

/-- The files the automation run reads and writes: the feedback ledger is
read-only input, the flags file is (re)written by `rebuild_flags`. -/
structure AutomationState where
  feedback : List FeedbackRecord
  flagsFile : List String

/-- One invocation of `run_automation.rebuild_flags` as a state step: read
the feedback ledger, compute the flagged list, persist it to the flags
file, and return it. -/
def rebuild_flags_job (th : ℕ) (s : AutomationState) : AutomationState × List String :=
  let flagged := rebuildFlagsList s.feedback th
  (⟨s.feedback, flagged⟩, flagged)

/-- Possible states of the feedback ledger file on disk. -/
inductive LedgerFile
  | missing
  | unreadable
  | malformed (raw : String)
  | valid (records : List FeedbackRecord)
deriving DecidableEq

/-- `run_automation.read_json`: `path.exists()` is checked first (a missing
file skips the load and returns the default); opening an unreadable file or
parsing malformed JSON raises inside the `try`, and the `except` clause
swallows the exception and returns the default. -/
def read_json (f : LedgerFile) (dflt : List FeedbackRecord) : List FeedbackRecord :=
  match f with
  | .missing => dflt
  | .unreadable => dflt
  | .malformed _ => dflt
  | .valid rs => rs

/-- `run_automation.rebuild_flags` including its unguarded persistence
call: `_atomic_write_json(FLAGS_FILE, flagged)` has no exception handler on
any enclosing frame, so a failing write propagates (modelled as
`Except.error`) instead of returning the in-memory list. -/
def rebuild_flags_io (f : LedgerFile) (write : List String → Except String Unit)
    (th : ℕ) : Except String (List String) :=
  let flagged := rebuildFlagsList (read_json f []) th
  match write flagged with
  | .ok _ => .ok flagged
  | .error e => .error e

/-- The per-identifier loop of `run_automation.enhance_flagged`.
`process oid` abstracts the body for one identifier: `.ok true` means the
stems were improved and replaced, `.ok false` means one of the `continue`
branches (missing folder, missing stems, no improvement), and `.error`
means an exception was raised (e.g. by the separation engine).  The loop
body contains no `try`/`except`, so an exception propagates out of the
whole batch. -/
def enhance_flagged_run (process : String → Except String Bool) :
    List String → ℕ → Except String ℕ
  | [], improved => .ok improved
  | oid :: rest, improved =>
    match process oid with
    | .ok true => enhance_flagged_run process rest (improved + 1)
    | .ok false => enhance_flagged_run process rest improved
    | .error e => .error e

/-- The per-identifier loop of `auto_improve.main`: each `improve_one`
call is wrapped in `try`/`except`, so a raising identifier is logged and
skipped and the loop continues with the next identifier. -/
def auto_improve_main_run (process : String → Except String Bool) :
    List String → ℕ → ℕ
  | [], improved => improved
  | oid :: rest, improved =>
    match process oid with
    | .ok true => auto_improve_main_run process rest (improved + 1)
    | .ok false => auto_improve_main_run process rest improved
    | .error _ => auto_improve_main_run process rest improved

/-- A concrete per-identifier behaviour: the engine raises on identifier
`a` and succeeds on every other identifier. -/
def procFailA : String → Except String Bool :=
  fun oid => if oid = ("a") then .error ("engine failure") else .ok true

/-- `energy` inside `leakage_score`:
`float(np.mean(x**2)) if x.size else 0.0`. -/
def energy (x : List ℚ) : ℚ :=
  if x.length = 0 then 0 else ((x.map (fun s => s ^ 2)).sum) / (x.length : ℚ)

/-- `leakage_score(vocals, accomp)` (identical in both automation files):
the mel-spectrogram z-score correlation term is an external `librosa`
computation, abstracted as the parameter `melCorr`; the energy-ratio term
`aE / (vE + 1e-8)` is embedded exactly.  Lower is better. -/
def leakage_score (melCorr : List ℚ → List ℚ → ℚ) (vocals accomp : List ℚ) : ℚ :=
  melCorr vocals accomp + energy accomp / (energy vocals + 1 / 100000000)

/-- A constant spectral-correlation stand-in used for concrete witnesses. -/
def melCorrZero : List ℚ → List ℚ → ℚ :=
  fun _ _ => 0

/-- `np.max(np.abs(y))` extended with value `0` on the empty buffer. -/
def maxAbs (y : List ℚ) : ℚ :=
  y.foldr (fun s m => max |s| m) 0

/-- `peak_normalize(y, peak=0.97)` (identical in both automation files):
`m = np.max(np.abs(y)) + 1e-9; np.clip(y * (peak / m), -1.0, 1.0)`. -/
def peak_normalize (y : List ℚ) (peak : ℚ := 97 / 100) : List ℚ :=
  let m : ℚ := maxAbs y + 1 / 1000000000
  y.map (fun u => min 1 (max (-1) (u * (peak / m))))

/-- One scored enhancement candidate of the chain selector. -/
structure Candidate where
  score : ℚ
  vocal : List ℚ
  accomp : List ℚ
  tag : String
deriving DecidableEq

/-- Python `min(cand, key=lambda x: x[0])`: the first candidate with the
minimal score (later candidates replace the current one only when strictly
smaller). -/
def pickBest (c0 c1 c2 : Candidate) : Candidate :=
  let m := if c1.score < c0.score then c1 else c0
  if c2.score < m.score then c2 else m

/-- Default `thresholds.min_improvement_margin` of `run_automation` (0.02). -/
def IMPROVE_MARGIN_DEFAULT : ℚ := 1 / 50

/-- The decision tail of `run_automation.enhance_flagged` for one
identifier, given the three scores and candidate pairs: if the best
candidate beats the baseline score by more than the configured margin, the
peak-normalized winning pair is written back (`some`); otherwise nothing
is written and the stored stems are left as they are (`none`). -/
def enhance_select (margin base s1 s2 : ℚ) (v0 a0 v1 a1 v2 a2 : List ℚ) :
    Option (List ℚ × List ℚ) :=
  let best := pickBest ⟨base, v0, a0, ("baseline")⟩ ⟨s1, v1, a1, ("mild")⟩
    ⟨s2, v2, a2, ("strong+NR")⟩
  if best.score < base - margin then
    some (peak_normalize best.vocal, peak_normalize best.accomp)
  else
    none

/-- The decision tail of `auto_improve.improve_one` for one identifier:
margin is hard-coded to `0.0`; if no candidate strictly beats the baseline
score, the strong-denoise candidate is force-adopted; the chosen pair is
peak-normalized and always written back.  Returns the written pair and the
log tag. -/
def improve_select (base s1 s2 : ℚ) (v0 a0 v1 a1 v2 a2 : List ℚ) :
    (List ℚ × List ℚ) × String :=
  let best := pickBest ⟨base, v0, a0, ("baseline")⟩ ⟨s1, v1, a1, ("mild")⟩
    ⟨s2, v2, a2, ("strong-denoise")⟩
  let margin : ℚ := 0
  let chosen :=
    if best.score < base - margin then (best.vocal, best.accomp, best.tag)
    else (v2, a2, ("forced-strong-denoise"))
  ((peak_normalize chosen.1, peak_normalize chosen.2.1), chosen.2.2)

/-- The range invariant of written stems: every sample lies in `[-1, 1]`
and the peak absolute sample is at most `0.97`. -/
def bufferInRange (y : List ℚ) : Prop :=
  (∀ s ∈ y, -1 ≤ s ∧ s ≤ 1) ∧ maxAbs y ≤ 97 / 100

/-- Range invariant of a written vocal/accompaniment pair. -/
def pairInRange (p : List ℚ × List ℚ) : Prop :=
  bufferInRange p.1 ∧ bufferInRange p.2

/-- One `output_*` directory of the outputs storage area, as the retention
manager sees it: its name, its modification time and its size. -/
structure OutputDir where
  name : String
  mtime : ℕ
  sizeGB : ℚ
deriving DecidableEq

/-- `dir_size_gb` over a set of output directories (total size). -/
def totalSizeGB (ds : List OutputDir) : ℚ :=
  (ds.map OutputDir.sizeGB).sum

/-- Insertion step for sorting directories by modification time
(`sorted(..., key=lambda d: d.stat().st_mtime)`). -/
def insertByMtime (d : OutputDir) : List OutputDir → List OutputDir
  | [] => [d]
  | e :: es => if d.mtime ≤ e.mtime then d :: e :: es else e :: insertByMtime d es

/-- Sort the output directories by ascending modification time. -/
def sortByMtime (ds : List OutputDir) : List OutputDir :=
  ds.foldr insertByMtime []

/-- The size-cap eviction loop of `run_automation.prune_outputs`:
`while total_gb > max_gb and dirs: victim = dirs.pop(0); rmtree(victim);
total_gb = dir_size_gb(...)`.  Takes the mtime-sorted directory list and
returns the surviving directories. -/
def evictOldest (cap : ℚ) : List OutputDir → List OutputDir
  | [] => []
  | d :: rest =>
    if cap < totalSizeGB (d :: rest) then evictOldest cap rest else d :: rest

/-- The size-based half of `run_automation.prune_outputs`: sort the
directories oldest-first and evict from the front until the total size is
within the cap (or nothing is left). -/
def prune_outputs_size (cap : ℚ) (ds : List OutputDir) : List OutputDir :=
  evictOldest cap (sortByMtime ds)

end NovaMind

namespace NovaMind

/-- `pyStrLtAux` agrees with the lexicographic order on character lists. -/
theorem pyStrLtAux_iff (l₁ l₂ : List Char) : pyStrLtAux l₁ l₂ = true ↔ l₁ < l₂ := by
  induction l₁ generalizing l₂ with
  | nil =>
    cases l₂ with
    | nil =>
      simp only [pyStrLtAux, Bool.false_eq_true, false_iff]
      intro h; cases h
    | cons b bs =>
      simp only [pyStrLtAux, true_iff]
      exact List.nil_lt_cons b bs
  | cons a as ih =>
    cases l₂ with
    | nil =>
      simp only [pyStrLtAux, Bool.false_eq_true, false_iff]
      intro h; cases h
    | cons b bs =>
      simp only [pyStrLtAux]
      by_cases hab : a < b
      · rw [if_pos hab]
        simp only [true_iff]
        exact List.Lex.rel hab
      · rw [if_neg hab]
        by_cases hba : b < a
        · rw [if_pos hba]
          simp only [Bool.false_eq_true, false_iff]
          intro h
          cases h with
          | cons h' => exact absurd hba (lt_irrefl a)
          | rel h' => exact hab h'
        · rw [if_neg hba]
          have heq : a = b := le_antisymm (not_lt.1 hba) (not_lt.1 hab)
          subst heq
          rw [ih bs]
          constructor
          · exact fun h => List.Lex.cons h
          · intro h
            cases h with
            | cons h' => exact h'
            | rel h' => exact absurd h' (lt_irrefl a)

/-- `pyStrLt` agrees with Lean's order on `String` (both are code-point
lexicographic, matching Python's string comparison). -/
theorem pyStrLt_iff (s t : String) : pyStrLt s t = true ↔ s < t := by
  rw [String.lt_iff_toList_lt]
  exact pyStrLtAux_iff s.data t.data

/-- Membership in `insertSorted`. -/
theorem mem_insertSorted (x a : String) (l : List String) :
    a ∈ insertSorted x l ↔ a = x ∨ a ∈ l := by
  induction l with
  | nil => simp [insertSorted]
  | cons y ys ih =>
    simp only [insertSorted]
    by_cases h1 : pyStrLt x y
    · rw [if_pos h1]
      simp [List.mem_cons]
    · rw [if_neg h1]
      by_cases h2 : x = y
      · rw [if_pos h2]
        subst h2
        simp only [List.mem_cons]
        tauto
      · rw [if_neg h2]
        simp only [List.mem_cons, ih]
        tauto

/-- `insertSorted` preserves strict ascending sortedness. -/
theorem sorted_insertSorted (x : String) (l : List String)
    (hl : l.Sorted (· < ·)) : (insertSorted x l).Sorted (· < ·) := by
  induction l with
  | nil => simp [insertSorted]
  | cons y ys ih =>
    rw [List.sorted_cons] at hl
    obtain ⟨hy, hys⟩ := hl
    simp only [insertSorted]
    by_cases h1 : pyStrLt x y
    · have hxy : x < y := (pyStrLt_iff x y).1 h1
      rw [if_pos h1, List.sorted_cons]
      refine ⟨?_, ?_⟩
      · intro b hb
        rcases List.mem_cons.1 hb with rfl | hbys
        · exact hxy
        · exact lt_trans hxy (hy b hbys)
      · rw [List.sorted_cons]
        exact ⟨hy, hys⟩
    · rw [if_neg h1]
      by_cases h2 : x = y
      · rw [if_pos h2]
        subst h2
        rw [List.sorted_cons]
        exact ⟨hy, hys⟩
      · have hnlt : ¬ x < y := fun h => h1 ((pyStrLt_iff x y).2 h)
        have hyx : y < x := lt_of_le_of_ne (not_lt.1 hnlt) (Ne.symm h2)
        rw [if_neg h2, List.sorted_cons]
        refine ⟨?_, ih hys⟩
        intro b hb
        rcases (mem_insertSorted x b ys).1 hb with rfl | hbys
        · exact hyx
        · exact hy b hbys

/-- `sortedDedup` output is strictly ascending. -/
theorem sorted_sortedDedup (l : List String) : (sortedDedup l).Sorted (· < ·) := by
  induction l with
  | nil => simp [sortedDedup]
  | cons x xs ih => exact sorted_insertSorted x (sortedDedup xs) ih

/-- `sortedDedup` preserves membership. -/
theorem mem_sortedDedup (a : String) (l : List String) :
    a ∈ sortedDedup l ↔ a ∈ l := by
  induction l with
  | nil => simp [sortedDedup]
  | cons x xs ih =>
    show a ∈ insertSorted x (sortedDedup xs) ↔ _
    rw [mem_insertSorted, ih, List.mem_cons]

/-- `sortedDedup` output is duplicate-free. -/
theorem nodup_sortedDedup (l : List String) : (sortedDedup l).Nodup :=
  (sorted_sortedDedup l).nodup

/-- C2: For every feedback history and threshold, `rebuild_flags` produces
exactly the identifiers whose negative count reaches the threshold and
strictly exceeds the positive count; with threshold 2, two negatives and
no positives flag the identifier, while two negatives and two positives do
not. -/
theorem c2_flag_rule :
    (∀ (fb : List FeedbackRecord) (th : ℕ) (oid : String),
      oid ∈ rebuildFlagsList fb th ↔
        th ≤ negCount fb oid ∧ posCount fb oid < negCount fb oid)
    ∧ ("a") ∈ rebuildFlagsList exTwoNeg 2
    ∧ ("b") ∉ rebuildFlagsList exTwoNegTwoPos 2 := by
  refine ⟨?_, by decide, by decide⟩
  intro fb th oid
  rw [rebuildFlagsList, mem_sortedDedup, List.mem_filter]
  constructor
  · rintro ⟨_, hcond⟩
    simpa using hcond
  · rintro ⟨h1, h2⟩
    refine ⟨?_, by simp [h1, h2]⟩
    have hpos : 0 < negCount fb oid := lt_of_le_of_lt (Nat.zero_le _) h2
    rw [negCount] at hpos
    exact List.count_pos_iff.1 hpos

/-- C3: Rebuilding the flagged list twice without new feedback yields an
identical result, and the produced list is duplicate-free and sorted in
strictly ascending string order. -/
theorem c3_rebuild_idempotent_sorted :
    ∀ (th : ℕ) (s : AutomationState),
      (rebuild_flags_job th (rebuild_flags_job th s).1).2 = (rebuild_flags_job th s).2
      ∧ ((rebuild_flags_job th s).2).Sorted (· < ·)
      ∧ ((rebuild_flags_job th s).2).Nodup := by
  intro th s
  exact ⟨rfl, sorted_sortedDedup _, nodup_sortedDedup _⟩

/-- `negList` distributes over ledger concatenation. -/
theorem negList_append (l₁ l₂ : List FeedbackRecord) :
    negList (l₁ ++ l₂) = negList l₁ ++ negList l₂ := by
  simp [negList, List.filter_append, List.map_append]

/-- `posList` distributes over ledger concatenation. -/
theorem posList_append (l₁ l₂ : List FeedbackRecord) :
    posList (l₁ ++ l₂) = posList l₁ ++ posList l₂ := by
  simp [posList, List.filter_append, List.map_append]

/-- The negative-id list of a single record. -/
theorem negList_singleton (r : FeedbackRecord) :
    negList [r] =
      if isNegativeRating r.rating = true ∧ idFromFeedback r ≠ ("") then
        [idFromFeedback r]
      else [] := by
  by_cases hneg : isNegativeRating r.rating
  · by_cases hid : idFromFeedback r = ("")
    · simp [negList, hneg, hid]
    · simp [negList, hneg, hid]
  · simp [negList, hneg]

/-- The positive-id list of a single record. -/
theorem posList_singleton (r : FeedbackRecord) :
    posList [r] =
      if r.rating.isSome = true ∧ isNegativeRating r.rating = false ∧
          idFromFeedback r ≠ ("") then
        [idFromFeedback r]
      else [] := by
  by_cases hsome : r.rating.isSome
  · by_cases hneg : isNegativeRating r.rating
    · simp [posList, hneg, hsome]
    · by_cases hid : idFromFeedback r = ("")
      · simp [posList, hneg, hsome, hid]
      · simp [posList, hneg, hsome, hid]
  · simp [posList, hsome]

/-- C4 counterexample: the record `(output_id "a", rating "meh")` — whose
rating normalizes to neither a recognized negative nor the web surface's
`positive`/`negative` vocabulary — is *not* ignored by
`run_automation.rebuild_flags`: it contributes 1 to the positive count of
identifier `a`. -/
theorem c4_counterexample :
    negCount exMeh ("a") = 0 ∧ posCount exMeh ("a") = 1 := by decide

/-- C4 (amended): appending one record to the ledger changes the
aggregator counts as follows: a record whose rating normalizes to a
recognized negative value (and whose identifier is nonempty) increments the
negative count of its identifier; a record with an absent (`None`) rating
contributes to neither count; every other record — including ratings that
are not recognizable as anything — increments the positive count. -/
theorem c4_amended_contribution (fb : List FeedbackRecord) (r : FeedbackRecord)
    (oid : String) :
    negCount (fb ++ [r]) oid
      = negCount fb oid
        + (if isNegativeRating r.rating = true ∧ idFromFeedback r = oid ∧
              idFromFeedback r ≠ ("") then 1 else 0)
    ∧ posCount (fb ++ [r]) oid
      = posCount fb oid
        + (if r.rating.isSome = true ∧ isNegativeRating r.rating = false ∧
              idFromFeedback r = oid ∧ idFromFeedback r ≠ ("") then 1 else 0) := by
  constructor
  · rw [negCount, negCount, negList_append, List.count_append, negList_singleton]
    congr 1
    split_ifs with h1 h2 h2
    · simp [List.count_singleton, h2.2.1]
    · rcases h1 with ⟨hn, hne⟩
      rw [List.count_singleton, if_neg]
      intro hbeq
      exact h2 ⟨hn, by simpa using hbeq, hne⟩
    · exact absurd ⟨h2.1, h2.2.2⟩ h1
    · simp
  · rw [posCount, posCount, posList_append, List.count_append, posList_singleton]
    congr 1
    split_ifs with h1 h2 h2
    · simp [List.count_singleton, h2.2.2.1]
    · rcases h1 with ⟨hs, hn, hne⟩
      rw [List.count_singleton, if_neg]
      intro hbeq
      exact h2 ⟨hs, hn, by simpa using hbeq, hne⟩
    · exact absurd ⟨h2.1, h2.2.1, h2.2.2.2⟩ h1
    · simp

/-- C5: A missing, unreadable or malformed feedback ledger never raises —
`read_json` swallows the failure and returns the default — and flag
rebuilding behaves exactly as on an empty ledger. -/
theorem c5_bad_ledger_as_empty (f : LedgerFile) (th : ℕ)
    (h : f = LedgerFile.missing ∨ f = LedgerFile.unreadable ∨
      ∃ raw, f = LedgerFile.malformed raw) :
    read_json f [] = [] ∧
      rebuildFlagsList (read_json f []) th = rebuildFlagsList [] th := by
  rcases h with h | h | ⟨raw, h⟩ <;> subst h <;> exact ⟨rfl, rfl⟩

/-- C5 witness: the malformed ledger at threshold 2. -/
theorem c5_witness :
    (LedgerFile.malformed ("not json") = LedgerFile.missing ∨
      LedgerFile.malformed ("not json") = LedgerFile.unreadable ∨
      ∃ raw, LedgerFile.malformed ("not json") = LedgerFile.malformed raw)
    ∧ (read_json (LedgerFile.malformed ("not json")) [] = [] ∧
        rebuildFlagsList (read_json (LedgerFile.malformed ("not json")) []) 2
          = rebuildFlagsList [] 2) :=
  ⟨Or.inr (Or.inr ⟨("not json"), rfl⟩),
    c5_bad_ledger_as_empty (LedgerFile.malformed ("not json")) 2
      (Or.inr (Or.inr ⟨("not json"), rfl⟩))⟩

/-- A write capability that always fails. -/
def failWrite : List String → Except String Unit :=
  fun _ => .error ("disk full")

/-- C6 counterexample: with a failing persistence capability,
`rebuild_flags` does *not* continue with the in-memory flagged list — the
write exception propagates out of `rebuild_flags` (aborting the run, since
`__main__` installs no handler either). -/
theorem c6_counterexample :
    rebuild_flags_io (LedgerFile.valid exTwoNeg) failWrite 2
      = Except.error ("disk full") := rfl

/-- C6 (amended): if persisting the flagged list fails, the exception
propagates out of `rebuild_flags` — `_atomic_write_json` is not wrapped in
any handler — so the run does not continue with the in-memory list. -/
theorem c6_amended_write_error_propagates (f : LedgerFile)
    (write : List String → Except String Unit) (th : ℕ) (e : String)
    (h : write (rebuildFlagsList (read_json f []) th) = Except.error e) :
    rebuild_flags_io f write th = Except.error e := by
  simp only [rebuild_flags_io, h]

/-- C6 witness: the failing write on the two-negatives ledger. -/
theorem c6_witness :
    failWrite (rebuildFlagsList (read_json (LedgerFile.valid exTwoNeg) []) 2)
      = Except.error ("disk full")
    ∧ rebuild_flags_io (LedgerFile.valid exTwoNeg) failWrite 2
      = Except.error ("disk full") :=
  ⟨rfl, c6_amended_write_error_propagates (LedgerFile.valid exTwoNeg) failWrite 2
    ("disk full") rfl⟩

/-- A buffer consisting only of zero samples has zero mean-square energy. -/
theorem energy_of_zero (a : List ℚ) (ha : ∀ s ∈ a, s = 0) : energy a = 0 := by
  rw [energy]
  split
  · rfl
  · have hsum : (a.map (fun s => s ^ 2)).sum = 0 := by
      apply List.sum_eq_zero
      intro x hx
      obtain ⟨s, hs, rfl⟩ := List.mem_map.1 hx
      rw [ha s hs]
      ring
    rw [hsum, zero_div]

/-- C7: With a silent (all-zero) accompaniment the leakage score
degenerates to the spectral-correlation term alone (the energy-ratio
term is exactly 0), and — holding the correlation term fixed — the score
of the same vocal against an accompaniment of positive energy is strictly
larger. -/
theorem c7_silent_accompaniment (melCorr : List ℚ → List ℚ → ℚ)
    (v a a' : List ℚ) (hv : 0 < energy v) (ha : ∀ s ∈ a, s = 0)
    (ha' : 0 < energy a') (hc : melCorr v a' = melCorr v a) :
    leakage_score melCorr v a = melCorr v a
    ∧ leakage_score melCorr v a < leakage_score melCorr v a' := by
  have hz : energy a = 0 := energy_of_zero a ha
  have hden : (0 : ℚ) < energy v + 1 / 100000000 := by linarith
  constructor
  · rw [leakage_score, hz, zero_div, add_zero]
  · rw [leakage_score, leakage_score, hz, zero_div, add_zero, hc]
    have hpos : 0 < energy a' / (energy v + 1 / 100000000) := div_pos ha' hden
    linarith

/-- C7 witness: vocal `[1]`, silent accompaniment `[0]`, loud
accompaniment `[2]`, constant correlation term. -/
theorem c7_witness :
    (0 : ℚ) < energy [1] ∧ (∀ s ∈ ([0] : List ℚ), s = 0) ∧ (0 : ℚ) < energy [2]
    ∧ melCorrZero [1] [2] = melCorrZero [1] [0]
    ∧ (leakage_score melCorrZero [1] [0] = melCorrZero [1] [0]
       ∧ leakage_score melCorrZero [1] [0] < leakage_score melCorrZero [1] [2]) :=
  ⟨by norm_num [energy], by simp, by norm_num [energy], rfl,
    c7_silent_accompaniment melCorrZero [1] [0] [2] (by norm_num [energy])
      (by simp) (by norm_num [energy]) rfl⟩

/-- `maxAbs` is nonnegative. -/
theorem maxAbs_nonneg (y : List ℚ) : 0 ≤ maxAbs y := by
  induction y with
  | nil => exact le_refl 0
  | cons s t ih => exact le_trans ih (le_max_right |s| (maxAbs t))

/-- Every sample's magnitude is bounded by `maxAbs`. -/
theorem abs_le_maxAbs (y : List ℚ) (s : ℚ) (hs : s ∈ y) : |s| ≤ maxAbs y := by
  induction y with
  | nil => cases hs
  | cons a t ih =>
    rcases List.mem_cons.1 hs with rfl | h
    · exact le_max_left _ _
    · exact le_trans (ih h) (le_max_right _ _)

/-- `maxAbs` is bounded by any nonnegative per-sample magnitude bound. -/
theorem maxAbs_le (y : List ℚ) (c : ℚ) (hc : 0 ≤ c)
    (h : ∀ s ∈ y, |s| ≤ c) : maxAbs y ≤ c := by
  induction y with
  | nil => exact hc
  | cons a t ih =>
    refine max_le (h a (List.mem_cons_self a t)) (ih ?_)
    exact fun s hs => h s (List.mem_cons_of_mem a hs)

/-- Every sample of `peak_normalize y` has magnitude at most `0.97`. -/
theorem peak_normalize_abs (y : List ℚ) :
    ∀ s ∈ peak_normalize y, |s| ≤ 97 / 100 := by
  intro s hs
  have hm0 : (0 : ℚ) ≤ maxAbs y := maxAbs_nonneg y
  have hm : (0 : ℚ) < maxAbs y + 1 / 1000000000 := by linarith
  obtain ⟨u, hu, rfl⟩ := List.mem_map.1 hs
  have hscale : (0 : ℚ) < (97 / 100) / (maxAbs y + 1 / 1000000000) :=
    div_pos (by norm_num) hm
  have habs : |u * ((97 / 100) / (maxAbs y + 1 / 1000000000))| ≤ 97 / 100 := by
    rw [abs_mul, abs_of_pos hscale]
    calc |u| * ((97 / 100) / (maxAbs y + 1 / 1000000000))
        ≤ (maxAbs y + 1 / 1000000000) * ((97 / 100) / (maxAbs y + 1 / 1000000000)) := by
          apply mul_le_mul_of_nonneg_right _ (le_of_lt hscale)
          exact le_trans (abs_le_maxAbs y u hu) (by linarith)
      _ = 97 / 100 := mul_div_cancel₀ _ (ne_of_gt hm)
  obtain ⟨hlo, hhi⟩ := abs_le.1 habs
  have hlo1 : (-1 : ℚ) ≤ u * ((97 / 100) / (maxAbs y + 1 / 1000000000)) := by linarith
  have hhi1 : u * ((97 / 100) / (maxAbs y + 1 / 1000000000)) ≤ 1 := by linarith
  rw [max_eq_right hlo1, min_eq_right hhi1]
  exact habs

/-- The pair produced by `peak_normalize` satisfies the written-stem range
invariant. -/
theorem peak_normalize_bufferInRange (y : List ℚ) :
    bufferInRange (peak_normalize y) := by
  constructor
  · intro s hs
    have h := peak_normalize_abs y s hs
    obtain ⟨hlo, hhi⟩ := abs_le.1 h
    constructor <;> linarith
  · exact maxAbs_le _ _ (by norm_num) (peak_normalize_abs y)

/-- C10: Both selectors peak-normalize each buffer of the pair they write
back, so every written sample lies in `[-1, 1]` and the peak absolute
sample of each written buffer is at most `0.97` — for `improve_one`
unconditionally, and for `enhance_flagged` whenever it writes at all. -/
theorem c10_written_stems_normalized :
    ∀ (margin base s1 s2 : ℚ) (v0 a0 v1 a1 v2 a2 : List ℚ),
      pairInRange (improve_select base s1 s2 v0 a0 v1 a1 v2 a2).1
      ∧ Option.elim (enhance_select margin base s1 s2 v0 a0 v1 a1 v2 a2) True
          pairInRange := by
  intro margin base s1 s2 v0 a0 v1 a1 v2 a2
  constructor
  · exact ⟨peak_normalize_bufferInRange _, peak_normalize_bufferInRange _⟩
  · rw [enhance_select]
    split
    · exact ⟨peak_normalize_bufferInRange _, peak_normalize_bufferInRange _⟩
    · trivial

/-- C10 witness: concrete scores and buffers. -/
theorem c10_witness :
    pairInRange (improve_select 3 1 2 [2] [2] [1] [1] [5] [7]).1
    ∧ Option.elim (enhance_select (1 / 50) 3 1 2 [2] [2] [1] [1] [5] [7]) True
        pairInRange :=
  c10_written_stems_normalized (1 / 50) 3 1 2 [2] [2] [1] [1] [5] [7]

/-- If the first candidate's score is minimal, Python's first-minimum
`min` returns it. -/
theorem pickBest_of_base_le (c0 c1 c2 : Candidate)
    (h1 : c0.score ≤ c1.score) (h2 : c0.score ≤ c2.score) :
    pickBest c0 c1 c2 = c0 := by
  rw [pickBest]
  simp only [if_neg (not_lt.2 h1)]
  rw [if_neg (not_lt.2 h2)]

/-- C1 counterexample: when neither chain beats the baseline score (all
scores equal, margin 0.02), `run_automation.enhance_flagged` writes
*nothing* — the stored stems stay byte-identical to the original pair —
instead of force-adopting the strong-denoise candidate. -/
theorem c1_counterexample :
    enhance_select IMPROVE_MARGIN_DEFAULT 0 0 0 [1] [1] [1] [1] [1] [1]
      = none := by
  rw [enhance_select, pickBest_of_base_le _ _ _ (le_refl (0 : ℚ)) (le_refl (0 : ℚ))]
  norm_num [IMPROVE_MARGIN_DEFAULT]

/-- C1 (amended): when no candidate's score beats the baseline, the two
selectors disagree: `auto_improve.improve_one` (margin 0.0) force-adopts
the strong-denoise candidate and writes its peak-normalized pair back,
while `run_automation.enhance_flagged` (positive configured margin) leaves
the stored stems untouched (no write). -/
theorem c1_amended_forced_strong (margin base s1 s2 : ℚ)
    (v0 a0 v1 a1 v2 a2 : List ℚ) (hm : 0 < margin)
    (h1 : base ≤ s1) (h2 : base ≤ s2) :
    improve_select base s1 s2 v0 a0 v1 a1 v2 a2
      = ((peak_normalize v2, peak_normalize a2), ("forced-strong-denoise"))
    ∧ enhance_select margin base s1 s2 v0 a0 v1 a1 v2 a2 = none := by
  constructor
  · rw [improve_select]
    rw [pickBest_of_base_le _ _ _ h1 h2]
    rw [if_neg (by simp)]
  · rw [enhance_select]
    rw [pickBest_of_base_le _ _ _ h1 h2]
    rw [if_neg (not_lt.2 (by linarith))]

/-- C1 witness: baseline 1, chain scores 1 and 2, default margin. -/
theorem c1_witness :
    (0 : ℚ) < IMPROVE_MARGIN_DEFAULT ∧ (1 : ℚ) ≤ 1 ∧ (1 : ℚ) ≤ 2
    ∧ (improve_select 1 1 2 [1] [1] [2] [2] [3] [4]
        = ((peak_normalize [3], peak_normalize [4]), ("forced-strong-denoise"))
       ∧ enhance_select IMPROVE_MARGIN_DEFAULT 1 1 2 [1] [1] [2] [2] [3] [4]
        = none) :=
  ⟨by norm_num [IMPROVE_MARGIN_DEFAULT], by norm_num, by norm_num,
    c1_amended_forced_strong IMPROVE_MARGIN_DEFAULT 1 1 2 [1] [1] [2] [2] [3] [4]
      (by norm_num [IMPROVE_MARGIN_DEFAULT]) (by norm_num) (by norm_num)⟩

/-- C8 counterexample: with identifiers `["a", "b"]` where processing `a`
raises (e.g. the separation engine throws) and `b` would succeed,
`run_automation.enhance_flagged` aborts with the exception — `b` is never
processed — instead of catching, logging and moving on. -/
theorem c8_counterexample :
    enhance_flagged_run procFailA [("a"), ("b")] 0
      = Except.error ("engine failure") := rfl

/-- Both loops process a prefix of identifiers that raise no exception in
the same way, threading the improved-counter through. -/
theorem run_append_ok (process : String → Except String Bool) :
    ∀ (pre : List String), (∀ o ∈ pre, ∃ b, process o = Except.ok b) →
    ∀ (acc : ℕ) (rest : List String),
      enhance_flagged_run process (pre ++ rest) acc
        = enhance_flagged_run process rest (auto_improve_main_run process pre acc)
      ∧ auto_improve_main_run process (pre ++ rest) acc
        = auto_improve_main_run process rest (auto_improve_main_run process pre acc) := by
  intro pre
  induction pre with
  | nil =>
    intro _ acc rest
    simp only [List.nil_append, auto_improve_main_run]
    exact ⟨trivial, trivial⟩
  | cons o os ih =>
    intro hpre acc rest
    obtain ⟨b, hb⟩ := hpre o (List.mem_cons_self o os)
    have hrest : ∀ o' ∈ os, ∃ b, process o' = Except.ok b :=
      fun o' ho' => hpre o' (List.mem_cons_of_mem o ho')
    cases b with
    | true =>
      simp only [List.cons_append, enhance_flagged_run, auto_improve_main_run, hb]
      exact ih hrest (acc + 1) rest
    | false =>
      simp only [List.cons_append, enhance_flagged_run, auto_improve_main_run, hb]
      exact ih hrest acc rest

/-- C8 (amended): per-identifier failure isolation holds in
`auto_improve.main` (each `improve_one` call is wrapped in `try`/`except`,
so the loop continues past a raising identifier), but not in
`run_automation.enhance_flagged`, whose loop body has no handler: the
first exception propagates and aborts the whole batch. -/
theorem c8_amended_isolation (process : String → Except String Bool)
    (pre post : List String) (oid : String) (e : String) (acc : ℕ)
    (hpre : ∀ o ∈ pre, ∃ b, process o = Except.ok b)
    (he : process oid = Except.error e) :
    enhance_flagged_run process (pre ++ oid :: post) acc = Except.error e
    ∧ auto_improve_main_run process (pre ++ oid :: post) acc
      = auto_improve_main_run process post (auto_improve_main_run process pre acc) := by
  have h := run_append_ok process pre hpre acc (oid :: post)
  constructor
  · rw [h.1]
    simp only [enhance_flagged_run, he]
  · rw [h.2]
    simp only [auto_improve_main_run, he]

/-- C8 witness: prefix `["c"]` succeeds, `a` raises, `["b"]` follows. -/
theorem c8_witness :
    (∀ o ∈ [("c")], ∃ b, procFailA o = Except.ok b)
    ∧ procFailA ("a") = Except.error ("engine failure")
    ∧ (enhance_flagged_run procFailA ([("c")] ++ ("a") :: [("b")]) 0
        = Except.error ("engine failure")
       ∧ auto_improve_main_run procFailA ([("c")] ++ ("a") :: [("b")]) 0
        = auto_improve_main_run procFailA [("b")]
            (auto_improve_main_run procFailA [("c")] 0)) := by
  have hpre : ∀ o ∈ [("c")], ∃ b, procFailA o = Except.ok b := by
    intro o ho
    rw [List.mem_singleton] at ho
    subst ho
    exact ⟨true, rfl⟩
  exact ⟨hpre, rfl,
    c8_amended_isolation procFailA [("c")] [("b")] ("a") ("engine failure") 0
      hpre rfl⟩

/-- `insertByMtime` is a permutation-preserving insertion. -/
theorem perm_insertByMtime (d : OutputDir) (l : List OutputDir) :
    (insertByMtime d l).Perm (d :: l) := by
  induction l with
  | nil => exact List.Perm.refl [d]
  | cons e es ih =>
    by_cases h : d.mtime ≤ e.mtime
    · rw [insertByMtime, if_pos h]
    · rw [insertByMtime, if_neg h]
      exact (ih.cons e).trans (List.Perm.swap d e es)

/-- `sortByMtime` permutes the directory list. -/
theorem perm_sortByMtime (ds : List OutputDir) : (sortByMtime ds).Perm ds := by
  induction ds with
  | nil => exact List.Perm.refl []
  | cons d t ih =>
    exact (perm_insertByMtime d (sortByMtime t)).trans (ih.cons d)

/-- `insertByMtime` preserves the mtime-nondecreasing invariant. -/
theorem pairwise_insertByMtime (d : OutputDir) (l : List OutputDir)
    (hl : l.Pairwise (fun a b => a.mtime ≤ b.mtime)) :
    (insertByMtime d l).Pairwise (fun a b => a.mtime ≤ b.mtime) := by
  induction l with
  | nil => simp [insertByMtime]
  | cons e es ih =>
    rw [List.pairwise_cons] at hl
    obtain ⟨he, hes⟩ := hl
    by_cases h : d.mtime ≤ e.mtime
    · rw [insertByMtime, if_pos h, List.pairwise_cons]
      refine ⟨?_, ?_⟩
      · intro x hx
        rcases List.mem_cons.1 hx with rfl | hxes
        · exact h
        · exact le_trans h (he x hxes)
      · rw [List.pairwise_cons]
        exact ⟨he, hes⟩
    · have hed : e.mtime ≤ d.mtime := Nat.le_of_not_le h
      rw [insertByMtime, if_neg h, List.pairwise_cons]
      refine ⟨?_, ih hes⟩
      intro x hx
      rcases List.mem_cons.1 ((perm_insertByMtime d es).mem_iff.1 hx) with rfl | hxes
      · exact hed
      · exact he x hxes

/-- `sortByMtime` sorts by nondecreasing modification time. -/
theorem sorted_sortByMtime (ds : List OutputDir) :
    (sortByMtime ds).Pairwise (fun a b => a.mtime ≤ b.mtime) := by
  induction ds with
  | nil => simp [sortByMtime]
  | cons d t ih => exact pairwise_insertByMtime d (sortByMtime t) ih

/-- Characterization of the eviction loop: the survivors are a suffix of
the input, the loop stops only within the cap (or with nothing left), and
each removal happens only while the remaining total still exceeds the
cap. -/
theorem evictOldest_spec (cap : ℚ) (l : List OutputDir) :
    ∃ removed,
      l = removed ++ evictOldest cap l
      ∧ (evictOldest cap l = [] ∨ totalSizeGB (evictOldest cap l) ≤ cap)
      ∧ ∀ n < removed.length, cap < totalSizeGB (l.drop n) := by
  induction l with
  | nil =>
    refine ⟨[], rfl, Or.inl rfl, ?_⟩
    intro n hn
    exact absurd hn (Nat.not_lt_zero n)
  | cons d rest ih =>
    by_cases h : cap < totalSizeGB (d :: rest)
    · obtain ⟨r, hr1, hr2, hr3⟩ := ih
      rw [evictOldest, if_pos h]
      refine ⟨d :: r, ?_, hr2, ?_⟩
      · rw [List.cons_append, ← hr1]
      · intro n hn
        cases n with
        | zero => exact h
        | succ m =>
          rw [List.drop_succ_cons]
          exact hr3 m (Nat.lt_of_succ_lt_succ hn)
    · rw [evictOldest, if_neg h]
      refine ⟨[], rfl, Or.inr (not_lt.1 h), ?_⟩
      intro n hn
      exact absurd hn (Nat.not_lt_zero n)

/-- C9: Size-based eviction removes directories oldest-first: the removed
directories form a prefix of the mtime-sorted directory list (each removed
only while the remaining total exceeded the cap) and the survivors are the
corresponding suffix, with total size within the cap unless everything was
evicted; the sorted list is mtime-nondecreasing and a permutation of the
input. -/
theorem c9_size_eviction (cap : ℚ) (ds : List OutputDir) :
    ∃ removed,
      sortByMtime ds = removed ++ prune_outputs_size cap ds
      ∧ (prune_outputs_size cap ds = []
          ∨ totalSizeGB (prune_outputs_size cap ds) ≤ cap)
      ∧ (∀ n < removed.length, cap < totalSizeGB ((sortByMtime ds).drop n))
      ∧ (sortByMtime ds).Pairwise (fun a b => a.mtime ≤ b.mtime)
      ∧ (sortByMtime ds).Perm ds := by
  obtain ⟨removed, h1, h2, h3⟩ := evictOldest_spec cap (sortByMtime ds)
  exact ⟨removed, h1, h2, h3, sorted_sortByMtime ds, perm_sortByMtime ds⟩

/-- Two directories used by the C9 witness. -/
def exDirs : List OutputDir :=
  [⟨("output_x"), 5, 2⟩, ⟨("output_y"), 3, 1⟩]

/-- C9 witness: concrete directories over a 1 GB cap. -/
theorem c9_witness :
    ∃ removed,
      sortByMtime exDirs = removed ++ prune_outputs_size 1 exDirs
      ∧ (prune_outputs_size 1 exDirs = []
          ∨ totalSizeGB (prune_outputs_size 1 exDirs) ≤ 1)
      ∧ (∀ n < removed.length, 1 < totalSizeGB ((sortByMtime exDirs).drop n))
      ∧ (sortByMtime exDirs).Pairwise (fun a b => a.mtime ≤ b.mtime)
      ∧ (sortByMtime exDirs).Perm exDirs :=
  c9_size_eviction 1 exDirs

end NovaMind
